import Mathlib

/-!
# postgres-flex: zombie diagnosis and standby cleaner

A shallow embedding of `pkg/flypg/zombie.go` (`ZombieDiagnosis`) and of the
loop body of `cmd/standby_cleaner/main.go`, with the properties of the
specification stated and proved over it.

Conventions of the embedding.

* Go `int` and `int64` values are Lean integers in the range of a 64 bit
  two's complement word (`IsInt`); `+` and `-` wrap around (`goAdd`, `goSub`)
  and `/` truncates towards zero (`goDiv`).
* A Go `map[string]int` that is ranged over is the list of its
  `(key, value)` entries in the order the `range` statement yields them.
  `len(m)` is the length of that list.
* A Go `error` result is `Option DiagError`: `none` is `nil`.
* The cleaner's `map[int]int64` is a function from keys to optional values;
  reading a missing key gives the zero value `0`, as in Go.
* The file `/data/zombie.lock` is a single slot (`Marker`): absent, or present
  with its contents. A Go string is its bytes, so `[]byte(s)` and `string(b)`
  keep the contents as they are. A call into `os` / `ioutil` either goes
  through or meets a storage error, which is an input of the model.
-/

namespace Flypg

/-! ## Machine integers -/

/-- Range of a 64 bit signed integer. -/
@[reducible] def IsInt (x : Int) : Prop := -9223372036854775808 ≤ x ∧ x ≤ 9223372036854775807

/-- Reduction of an integer into the 64 bit signed range (two's complement wrap around). -/
def wrapInt (x : Int) : Int :=
  (x + 9223372036854775808) % 18446744073709551616 - 9223372036854775808

/-- Go `a + b` on `int` / `int64`. -/
def goAdd (a b : Int) : Int := wrapInt (a + b)

/-- Go `a - b` on `int` / `int64`. -/
def goSub (a b : Int) : Int := wrapInt (a - b)

/-- Go `a * b` on `int` / `int64`. -/
def goMul (a b : Int) : Int := wrapInt (a * b)

/-- Go `a / b` on `int`: the quotient truncated towards zero. -/
def goDiv (a b : Int) : Int := wrapInt (Int.tdiv a b)

/-! ## `pkg/flypg/zombie.go` -/

/-- Errors of the `os` and `ioutil` calls on the marker file: the file does not exist, or
any other storage error (permission, input/output, ...). -/
inductive FsError where
  | ErrNotExist
  | ErrOther
  deriving DecidableEq, Repr

/-- The file `/data/zombie.lock`: `none` when absent, its contents when present. -/
abbrev Marker := Option String

/-- Go `os.IsNotExist(err)`. -/
def IsNotExist (err : Option FsError) : Bool :=
  match err with
  | some FsError.ErrNotExist => true
  | _ => false

/-- The error result of `os.Stat("/data/zombie.lock")`. With `fault` the call meets a
storage error other than absence. -/
def osStat (fault : Bool) (marker : Marker) : Option FsError :=
  if fault then some FsError.ErrOther
  else
    match marker with
    | none => some FsError.ErrNotExist
    | some _ => none

/-- Go `ioutil.WriteFile("/data/zombie.lock", data, 0644)`: the file is created or
truncated and then holds `data`. With `fault = some left` the call meets a storage error
and leaves the file as `left`. -/
def ioutilWriteFile (fault : Option Marker) (data : String) (_marker : Marker) :
    Marker × Option FsError :=
  match fault with
  | some left => (left, some FsError.ErrOther)
  | none => (some data, none)

/-- Go `os.Remove("/data/zombie.lock")`. With `fault` the call meets a storage error other
than absence and the file stays as it is. -/
def osRemove (fault : Bool) (marker : Marker) : Marker × Option FsError :=
  if fault then (marker, some FsError.ErrOther)
  else
    match marker with
    | none => (none, some FsError.ErrNotExist)
    | some _ => (none, none)

/-- Go `ioutil.ReadFile("/data/zombie.lock")`: the body and the error. With `fault` the
call meets a storage error other than absence. -/
def ioutilReadFile (fault : Bool) (marker : Marker) : String × Option FsError :=
  if fault then ("", some FsError.ErrOther)
  else
    match marker with
    | none => ("", some FsError.ErrNotExist)
    | some body => (body, none)

/-- Embedding of `ZombieLockExists()`. -/
def ZombieLockExists (fault : Bool) (marker : Marker) : Bool :=
  let err := osStat fault marker
  if IsNotExist err then
    false
  else
    true

/-- Embedding of `writeZombieLock(hostname)`: the marker afterwards and the error. -/
def writeZombieLock (hostname : String) (fault : Option Marker) (marker : Marker) :
    Marker × Option FsError :=
  let r := ioutilWriteFile fault hostname marker
  if r.2 ≠ none then
    (r.1, r.2)
  else
    (r.1, none)

/-- Embedding of `removeZombieLock()`: the marker afterwards and the error. -/
def removeZombieLock (fault : Bool) (marker : Marker) : Marker × Option FsError :=
  let r := osRemove fault marker
  if r.2 ≠ none then
    (r.1, r.2)
  else
    (r.1, none)

/-- Embedding of `readZombieLock()`: the string and the error. -/
def readZombieLock (fault : Bool) (marker : Marker) : String × Option FsError :=
  let r := ioutilReadFile fault marker
  if r.2 ≠ none then
    ("", r.2)
  else
    (r.1, none)

/-- The error values `ZombieDiagnosis` can return besides `nil`. -/
inductive DiagError where
  | ErrZombieDiscovered
  deriving DecidableEq, Repr

/-- The three loop variables of the tally loop:
`topCandidate`, `highestCount`, `totalConflicts`. -/
structure Tally where
  topCandidate : String
  highestCount : Int
  totalConflicts : Int
  deriving DecidableEq, Repr

/-- One iteration of `for hostname, total := range conflictMap`. -/
def tallyStep (acc : Tally) (entry : String × Int) : Tally :=
  let totalConflicts := goAdd acc.totalConflicts entry.2
  if entry.2 > acc.highestCount then
    ⟨entry.1, entry.2, totalConflicts⟩
  else
    ⟨acc.topCandidate, acc.highestCount, totalConflicts⟩

/-- The whole tally loop, started from `topCandidate := ""`, `highestCount := 0`,
`totalConflicts := 0`. -/
def tally (conflictMap : List (String × Int)) : Tally :=
  conflictMap.foldl tallyStep ⟨"", 0, 0⟩

/-- Embedding of `ZombieDiagnosis(myHostname, total, inactive, active, conflictMap)`. -/
def ZombieDiagnosis (myHostname : String) (total inactive active : Int)
    (conflictMap : List (String × Int)) : String × Option DiagError :=
  -- Single node cluster
  if total = 1 then
    (myHostname, none)
  -- Two node cluster
  else if total = 2 then
    if conflictMap.length > 0 ∨ inactive = 1 then
      ("", some DiagError.ErrZombieDiscovered)
    else
      (myHostname, none)
  -- If all standbys are inactive, then there's a possible network split.
  else if total = goSub inactive 1 then
    ("", some DiagError.ErrZombieDiscovered)
  else
    let quorum := goAdd (goDiv total 2) 1
    if conflictMap.length = 0 ∧ active ≥ quorum then
      (myHostname, none)
    else if active < quorum then
      ("", some DiagError.ErrZombieDiscovered)
    else
      let t := tally conflictMap
      let myCount := goSub (goSub total inactive) t.totalConflicts
      let highestCount := if myCount > t.highestCount then myCount else t.highestCount
      let topCandidate := if myCount > t.highestCount then myHostname else t.topCandidate
      if highestCount < quorum then
        ("", some DiagError.ErrZombieDiscovered)
      else
        (topCandidate, some DiagError.ErrZombieDiscovered)

/-! ## `cmd/standby_cleaner/main.go` -/

/-- The package variable `Minute`. -/
def Minute : Int := 60

/-- A standby as listed by `RepMgr.Standbys`; the loop reads `Id` and `Ip`. -/
structure Standby where
  Id : Int
  Ip : String
  deriving DecidableEq, Repr

/-- The tracker `seenAt`, a Go `map[int]int64`. -/
abbrev SeenAt := Int → Option Int

/-- The map literal `map[int]int64{}`. -/
def SeenAt.empty : SeenAt := fun _ => none

/-- Go `seenAt[k]` as an expression: the stored value, or the zero value `0`
when `k` has no entry. -/
def SeenAt.get (m : SeenAt) (k : Int) : Int := (m k).getD 0

/-- Go `seenAt[k] = v`. -/
def SeenAt.set (m : SeenAt) (k v : Int) : SeenAt := fun j => if j = k then some v else m j

/-- Go `delete(seenAt, k)`. -/
def SeenAt.delete (m : SeenAt) (k : Int) : SeenAt := fun j => if j = k then none else m j

/-- Calls the loop makes to the replication manager, recorded in the order made. -/
inductive Call where
  | CurrentRole
  | Standbys
  | NewRemoteConnection (ip : String)
  | UnregisterStandby (id : Int)
  | Close
  deriving DecidableEq, Repr

/-- What the outside world answers while one standby is processed. -/
structure Outcome where
  /-- Whether `NewRemoteConnection` returned an error. -/
  connErr : Bool
  /-- The value of `time.Now().Unix()`; it is read once per standby, in either branch. -/
  now : Int
  /-- Whether `UnregisterStandby` returns an error, should it be called. -/
  unregisterErr : Bool
  deriving DecidableEq, Repr

/-- The body of `for _, standby := range standbys`: the tracker afterwards and
the calls made for this standby. -/
def processStandby (seenAt : SeenAt) (standby : Standby) (o : Outcome) : SeenAt × List Call :=
  if o.connErr then
    if goSub o.now (seenAt.get standby.Id) ≥ goMul 10 Minute then
      if o.unregisterErr then
        -- `continue`
        (seenAt, [Call.NewRemoteConnection standby.Ip, Call.UnregisterStandby standby.Id])
      else
        (seenAt.delete standby.Id,
          [Call.NewRemoteConnection standby.Ip, Call.UnregisterStandby standby.Id])
    else
      (seenAt, [Call.NewRemoteConnection standby.Ip])
  else
    (seenAt.set standby.Id o.now, [Call.NewRemoteConnection standby.Ip, Call.Close])

/-- The loop `for _, standby := range standbys`, each standby paired with the
answers it meets. -/
def processStandbys (seenAt : SeenAt) : List (Standby × Outcome) → SeenAt × List Call
  | [] => (seenAt, [])
  | (standby, o) :: rest =>
    let r := processStandby seenAt standby o
    let r' := processStandbys r.1 rest
    (r'.1, r.2 ++ r'.2)

/-- One iteration of `for _ = range ticker.C`: `role` is the result of
`CurrentRole`, `standbys` the result of `Standbys` (with the answers each
listed standby will meet). Logging is left out. -/
def cycle (role : Except String String) (standbys : Except String (List (Standby × Outcome)))
    (seenAt : SeenAt) : SeenAt × List Call :=
  match role with
  | Except.error _ => (seenAt, [Call.CurrentRole])
  | Except.ok role =>
    if role ≠ "primary" then
      (seenAt, [Call.CurrentRole])
    else
      match standbys with
      | Except.error _ => (seenAt, [Call.CurrentRole, Call.Standbys])
      | Except.ok listed =>
        let r := processStandbys seenAt listed
        (r.1, [Call.CurrentRole, Call.Standbys] ++ r.2)

/-- The period of the ticker, `5 * time.Second`, in seconds. -/
def tickSeconds : Int := 5

/-- The ticker loop on a node that stays primary and whose listing always succeeds:
cycle `k` meets the listing `listing k`. The result is the outcome of cycle `k`, the
tracker after it and the calls it made, when the loop starts from `seenAt` with
cycle `0`. -/
def cleanerRun (seenAt : SeenAt) (listing : Nat → List (Standby × Outcome)) :
    Nat → SeenAt × List Call
  | 0 => cycle (Except.ok "primary") (Except.ok (listing 0)) seenAt
  | k + 1 =>
    cycle (Except.ok "primary") (Except.ok (listing (k + 1))) (cleanerRun seenAt listing k).1

/-! ## Quantities the specification speaks of -/

/-- The listing holds `standby`, meeting the answers `o`, and no other entry of the
listing has the id of `standby`. -/
def ListsOnce (listed : List (Standby × Outcome)) (standby : Standby) (o : Outcome) : Prop :=
  ∃ pre post : List (Standby × Outcome),
    listed = pre ++ (standby, o) :: post
    ∧ (∀ x ∈ pre, x.1.Id ≠ standby.Id) ∧ (∀ x ∈ post, x.1.Id ≠ standby.Id)

/-- The sum of all votes of a conflict map, as a mathematical integer. -/
def voteSum (conflictVotes : List (String × Int)) : Int := (conflictVotes.map Prod.snd).sum

/-- The first identity, in enumeration order, whose vote equals `v`
(the empty identity if no entry has that vote). -/
def firstWithVote (conflictVotes : List (String × Int)) (v : Int) : String :=
  match conflictVotes.find? (fun p => decide (p.2 = v)) with
  | some p => p.1
  | none => ""

/-- The value `v` is the highest vote of the conflict map: some identity holds it and
no identity holds more. -/
def IsHighestVote (conflictVotes : List (String × Int)) (v : Int) : Prop :=
  (∃ p ∈ conflictVotes, p.2 = v) ∧ ∀ p ∈ conflictVotes, p.2 ≤ v

/-- At most one identity holds the highest vote of the conflict map. -/
def SingleTop (conflictVotes : List (String × Int)) : Prop :=
  ∀ p ∈ conflictVotes, ∀ q ∈ conflictVotes,
    (∀ r ∈ conflictVotes, r.2 ≤ p.2) → (∀ r ∈ conflictVotes, r.2 ≤ q.2) → p.1 = q.1

instance (conflictVotes : List (String × Int)) : Decidable (SingleTop conflictVotes) := by
  unfold SingleTop; infer_instance

/-! ## Machine arithmetic lemmas -/

theorem wrapInt_of_isInt {x : Int} (h : IsInt x) : wrapInt x = x := by
  unfold wrapInt; unfold IsInt at h; omega

theorem isInt_wrapInt (x : Int) : IsInt (wrapInt x) := by
  unfold wrapInt IsInt; omega

theorem wrapInt_add_wrapInt (a b : Int) : wrapInt (wrapInt a + b) = wrapInt (a + b) := by
  unfold wrapInt; omega

theorem wrapInt_sub_wrapInt (a b : Int) : wrapInt (a - wrapInt b) = wrapInt (a - b) := by
  unfold wrapInt; omega

theorem wrapInt_wrapInt_sub (a b : Int) : wrapInt (wrapInt a - b) = wrapInt (a - b) := by
  unfold wrapInt; omega

/-- The quorum of a cluster of at least three members is computed without wrap around. -/
theorem quorum_eq {total : Int} (hT : IsInt total) (h3 : 3 ≤ total) :
    goAdd (goDiv total 2) 1 = total / 2 + 1 := by
  have hdiv : Int.tdiv total 2 = total / 2 := Int.tdiv_eq_ediv (by omega) (by decide)
  unfold goAdd goDiv
  rw [hdiv]
  unfold wrapInt; unfold IsInt at hT; omega

theorem grace_eq : goMul 10 Minute = 600 := by decide

/-! ## Properties of `ZombieDiagnosis` -/

/-- C6. Singleton cluster: with `total == 1` the diagnosis is `(self, ok)` whatever the
other inputs are. -/
theorem singleton_cluster_ok (self : String) (inactive active : Int)
    (conflictVotes : List (String × Int)) :
    ZombieDiagnosis self 1 inactive active conflictVotes = (self, none) := by
  simp [ZombieDiagnosis]

/-- C5. Two-node cluster: with `total == 2` the diagnosis is the zombie verdict with the
empty candidate exactly when `conflictVotes` is non-empty or `inactive == 1`, and
`(self, ok)` in every other case. -/
theorem two_node_cluster (self : String) (inactive active : Int)
    (conflictVotes : List (String × Int)) :
    (ZombieDiagnosis self 2 inactive active conflictVotes
        = ("", some DiagError.ErrZombieDiscovered)
      ↔ (conflictVotes ≠ [] ∨ inactive = 1))
    ∧ (¬ (conflictVotes ≠ [] ∨ inactive = 1) →
        ZombieDiagnosis self 2 inactive active conflictVotes = (self, none)) := by
  cases conflictVotes with
  | nil =>
    by_cases h : inactive = 1 <;> simp [ZombieDiagnosis, h]
  | cons p ps => simp [ZombieDiagnosis]

/-- C7. Split-brain safety: when `total != 1` and at least one peer reports another
primary, the verdict is the zombie verdict, whatever candidate comes with it. -/
theorem conflict_never_ok (self : String) (total inactive active : Int)
    (conflictVotes : List (String × Int)) (hT : total ≠ 1) (hne : conflictVotes ≠ []) :
    (ZombieDiagnosis self total inactive active conflictVotes).2
      = some DiagError.ErrZombieDiscovered := by
  have hlen : conflictVotes.length ≠ 0 := by
    intro h; exact hne (List.length_eq_zero.mp h)
  have hpos : conflictVotes.length > 0 := Nat.pos_of_ne_zero hlen
  unfold ZombieDiagnosis
  simp only [hT, hlen, hpos, if_false, if_true, true_or, false_and]
  split_ifs <;> rfl

theorem conflict_never_ok_witness :
    (ZombieDiagnosis "A" 5 0 4 [("X", 1)]).2 = some DiagError.ErrZombieDiscovered :=
  conflict_never_ok "A" 5 0 4 [("X", 1)] (by decide) (by simp)

/-! ## The tally loop -/

theorem foldl_tallyStep_totalConflicts (l : List (String × Int)) (acc : Tally)
    (hacc : IsInt acc.totalConflicts) :
    (l.foldl tallyStep acc).totalConflicts = wrapInt (acc.totalConflicts + voteSum l) := by
  induction l generalizing acc with
  | nil => simp [voteSum, wrapInt_of_isInt hacc]
  | cons p ps ih =>
    have hstep : (tallyStep acc p).totalConflicts = wrapInt (acc.totalConflicts + p.2) := by
      unfold tallyStep goAdd; split_ifs <;> rfl
    rw [List.foldl_cons, ih (tallyStep acc p) (hstep ▸ isInt_wrapInt _), hstep,
      wrapInt_add_wrapInt]
    congr 1
    simp [voteSum]; omega

theorem tally_totalConflicts (l : List (String × Int)) :
    (tally l).totalConflicts = wrapInt (voteSum l) := by
  unfold tally
  rw [foldl_tallyStep_totalConflicts l _ (by decide)]
  simp

/-- What the loop leaves in `highestCount` and `topCandidate`: the count bounds every vote,
and either both variables are untouched or the count grew to the vote of the first entry
that holds it, whose identity is the candidate. -/
theorem foldl_tallyStep_top (l : List (String × Int)) (acc : Tally) :
    (∀ p ∈ l, p.2 ≤ (l.foldl tallyStep acc).highestCount)
    ∧ acc.highestCount ≤ (l.foldl tallyStep acc).highestCount
    ∧ (((l.foldl tallyStep acc).highestCount = acc.highestCount
          ∧ (l.foldl tallyStep acc).topCandidate = acc.topCandidate)
        ∨ (acc.highestCount < (l.foldl tallyStep acc).highestCount
          ∧ l.find? (fun p => decide (p.2 = (l.foldl tallyStep acc).highestCount))
              = some ((l.foldl tallyStep acc).topCandidate,
                      (l.foldl tallyStep acc).highestCount))) := by
  induction l generalizing acc with
  | nil => simp
  | cons p ps ih =>
    rw [List.foldl_cons]
    obtain ⟨hall, hle, hcase⟩ := ih (tallyStep acc p)
    by_cases hp : p.2 > acc.highestCount
    · have hh : (tallyStep acc p).highestCount = p.2 := by simp [tallyStep, hp]
      have hc : (tallyStep acc p).topCandidate = p.1 := by simp [tallyStep, hp]
      rw [hh] at hle hcase
      rw [hc] at hcase
      refine ⟨?_, by omega, Or.inr ⟨by omega, ?_⟩⟩
      · intro q hq
        rcases List.mem_cons.mp hq with rfl | hq
        · exact hle
        · exact hall q hq
      · rcases hcase with ⟨h1, h2⟩ | ⟨h1, h2⟩
        · rw [List.find?_cons, h1, h2]; simp
        · have hne : ¬ p.2 = (List.foldl tallyStep (tallyStep acc p) ps).highestCount := by omega
          rw [List.find?_cons]
          simp only [hne, decide_False]
          exact h2
    · have hh : (tallyStep acc p).highestCount = acc.highestCount := by simp [tallyStep, hp]
      have hc : (tallyStep acc p).topCandidate = acc.topCandidate := by simp [tallyStep, hp]
      rw [hh] at hle hcase
      rw [hc] at hcase
      refine ⟨?_, hle, ?_⟩
      · intro q hq
        rcases List.mem_cons.mp hq with rfl | hq
        · omega
        · exact hall q hq
      · rcases hcase with h | ⟨h1, h2⟩
        · exact Or.inl h
        · refine Or.inr ⟨h1, ?_⟩
          have hne : ¬ p.2 = (List.foldl tallyStep (tallyStep acc p) ps).highestCount := by omega
          rw [List.find?_cons]
          simp only [hne, decide_False]
          exact h2

/-- The tally loop from its initial variables. -/
theorem tally_top (l : List (String × Int)) :
    (∀ p ∈ l, p.2 ≤ (tally l).highestCount)
    ∧ (((tally l).highestCount = 0 ∧ (tally l).topCandidate = "")
        ∨ (0 < (tally l).highestCount
          ∧ l.find? (fun p => decide (p.2 = (tally l).highestCount))
              = some ((tally l).topCandidate, (tally l).highestCount))) := by
  have h := foldl_tallyStep_top l ⟨"", 0, 0⟩
  exact ⟨h.1, h.2.2⟩

/-- The tally loop in the words of the specification: with `top` the highest vote,
`highestCount` ends as `top` and `topCandidate` as the first identity holding `top` when
`top` is positive, and both keep their initial values otherwise. -/
theorem tally_of_highest {l : List (String × Int)} {top : Int} (h : IsHighestVote l top) :
    (top ≤ 0 → (tally l).highestCount = 0 ∧ (tally l).topCandidate = "")
    ∧ (0 < top → (tally l).highestCount = top ∧ (tally l).topCandidate = firstWithVote l top) := by
  obtain ⟨⟨p, hp, hpv⟩, hmax⟩ := h
  obtain ⟨hall, hcase⟩ := tally_top l
  have hge : top ≤ (tally l).highestCount := hpv ▸ hall p hp
  rcases hcase with ⟨h0, hc⟩ | ⟨hpos, hfind⟩
  · exact ⟨fun _ => ⟨h0, hc⟩, fun h => by omega⟩
  · have hmem := List.mem_of_find?_eq_some hfind
    have hle : (tally l).highestCount ≤ top := hmax _ hmem
    have heq : (tally l).highestCount = top := by omega
    refine ⟨fun h => by omega, fun _ => ⟨heq, ?_⟩⟩
    rw [heq] at hfind
    simp [firstWithVote, hfind]

/-- The conflict branch of `ZombieDiagnosis`, reached when the cluster has at least three
members, the all-inactive guard does not fire, some peer reports another primary and
enough peers are active. -/
theorem ZombieDiagnosis_conflict (self : String) (total inactive active : Int)
    (l : List (String × Int)) (hT : IsInt total) (h3 : 3 ≤ total)
    (hg : total ≠ goSub inactive 1) (hne : l ≠ []) (hq : total / 2 + 1 ≤ active) :
    ZombieDiagnosis self total inactive active l =
      if max (wrapInt (total - inactive - voteSum l)) (tally l).highestCount < total / 2 + 1 then
        ("", some DiagError.ErrZombieDiscovered)
      else
        (if wrapInt (total - inactive - voteSum l) > (tally l).highestCount then self
          else (tally l).topCandidate, some DiagError.ErrZombieDiscovered) := by
  have hlen : l.length ≠ 0 := fun h => hne (List.length_eq_zero.mp h)
  have h1 : total ≠ 1 := by omega
  have h2 : total ≠ 2 := by omega
  have hmy : goSub (goSub total inactive) (tally l).totalConflicts
      = wrapInt (total - inactive - voteSum l) := by
    rw [tally_totalConflicts]
    unfold goSub
    rw [wrapInt_sub_wrapInt, wrapInt_wrapInt_sub]
  have hnlt : ¬ active < total / 2 + 1 := by omega
  unfold ZombieDiagnosis
  simp only [h1, h2, hg, hlen, if_false, false_and, quorum_eq hT h3, hmy, hnlt]
  by_cases hgt : wrapInt (total - inactive - voteSum l) > (tally l).highestCount
  · simp only [hgt, if_true]
    have : max (wrapInt (total - inactive - voteSum l)) (tally l).highestCount
        = wrapInt (total - inactive - voteSum l) := max_eq_left (by omega)
    rw [this]
  · simp only [hgt, if_false]
    have : max (wrapInt (total - inactive - voteSum l)) (tally l).highestCount
        = (tally l).highestCount := max_eq_right (by omega)
    rw [this]

/-- C1. Conflict resolution, majority case. For `total >= 3`, `inactive >= 0`,
`active + inactive <= total - 1`, `active >= quorum = total/2 + 1` and a non-empty
conflict map in any enumeration order, with `top` the highest vote and `myCount` the `int`
value of `total - inactive - (sum of all votes)`: if `max(myCount, top) >= quorum` then
`ZombieDiagnosis` returns the zombie verdict together with `self` when `myCount > top`
and otherwise the first identity in enumeration order whose vote equals `top`. -/
theorem conflict_majority (self : String) (total inactive active : Int)
    (conflictVotes : List (String × Int)) (top myCount : Int)
    (hT : IsInt total) (h3 : 3 ≤ total) (hI : 0 ≤ inactive)
    (hcons : active + inactive ≤ total - 1) (hq : total / 2 + 1 ≤ active)
    (hne : conflictVotes ≠ []) (htop : IsHighestVote conflictVotes top)
    (hmy : myCount = wrapInt (total - inactive - voteSum conflictVotes))
    (hmaj : total / 2 + 1 ≤ max myCount top) :
    ZombieDiagnosis self total inactive active conflictVotes
      = (if myCount > top then self else firstWithVote conflictVotes top,
          some DiagError.ErrZombieDiscovered) := by
  have hg : total ≠ goSub inactive 1 := by
    unfold goSub wrapInt; unfold IsInt at hT; omega
  rw [ZombieDiagnosis_conflict self total inactive active conflictVotes hT h3 hg hne hq, ← hmy]
  obtain ⟨hnonpos, hpos⟩ := tally_of_highest htop
  have hmax := le_max_iff.mp hmaj
  by_cases htp : 0 < top
  · obtain ⟨hh, hc⟩ := hpos htp
    rw [hh, hc, if_neg (not_lt.mpr hmaj)]
  · obtain ⟨hh, hc⟩ := hnonpos (by omega)
    have hmq : total / 2 + 1 ≤ myCount := by omega
    have h1 : myCount > top := by omega
    have h2 : myCount > 0 := by omega
    have h3 : ¬ max myCount 0 < total / 2 + 1 := by
      rw [max_eq_left (by omega)]; omega
    rw [hh, hc, if_neg h3, if_pos h1, if_pos h2]

theorem conflict_majority_witness :
    ZombieDiagnosis "self" 5 0 4 [("X", 1)] = ("self", some DiagError.ErrZombieDiscovered) :=
  conflict_majority "self" 5 0 4 [("X", 1)] 1 4 (by decide) (by decide) (by decide)
    (by decide) (by decide) (by decide) ⟨⟨("X", 1), by decide, rfl⟩, by decide⟩
    (by decide) (by decide)

/-- C2. Conflict resolution, no-majority case. For `total >= 3` and a non-empty conflict
map in any enumeration order, with `top` the highest vote and `myCount` the `int` value of
`total - inactive - (sum of all votes)`: if both `top` and `myCount` are below
`quorum = total/2 + 1` then `ZombieDiagnosis` returns the zombie verdict with the empty
candidate, for every `inactive` and every `active`. -/
theorem conflict_no_majority (self : String) (total inactive active : Int)
    (conflictVotes : List (String × Int)) (top myCount : Int)
    (hT : IsInt total) (h3 : 3 ≤ total)
    (hne : conflictVotes ≠ []) (htop : IsHighestVote conflictVotes top)
    (hmy : myCount = wrapInt (total - inactive - voteSum conflictVotes))
    (htopq : top < total / 2 + 1) (hmyq : myCount < total / 2 + 1) :
    ZombieDiagnosis self total inactive active conflictVotes
      = ("", some DiagError.ErrZombieDiscovered) := by
  by_cases hg : total = goSub inactive 1
  · have h1 : total ≠ 1 := by omega
    have h2 : total ≠ 2 := by omega
    unfold ZombieDiagnosis
    simp only [h1, h2, if_false]
    rw [if_pos hg]
  · by_cases hq : total / 2 + 1 ≤ active
    · rw [ZombieDiagnosis_conflict self total inactive active conflictVotes hT h3 hg hne hq,
        ← hmy]
      obtain ⟨hnonpos, hpos⟩ := tally_of_highest htop
      have hlt : max myCount (tally conflictVotes).highestCount < total / 2 + 1 := by
        by_cases htp : 0 < top
        · rw [(hpos htp).1]; exact max_lt hmyq htopq
        · rw [(hnonpos (by omega)).1]; exact max_lt hmyq (by omega)
      rw [if_pos hlt]
    · have hlen : conflictVotes.length ≠ 0 := fun h => hne (List.length_eq_zero.mp h)
      have h1 : total ≠ 1 := by omega
      have h2 : total ≠ 2 := by omega
      have hlt : active < total / 2 + 1 := by omega
      unfold ZombieDiagnosis
      simp only [h1, h2, hg, hlen, if_false, false_and, quorum_eq hT h3, hlt, if_true]

theorem conflict_no_majority_witness :
    ZombieDiagnosis "A" 10 1 7 [("B", 3), ("C", 2)]
      = ("", some DiagError.ErrZombieDiscovered) :=
  conflict_no_majority "A" 10 1 7 [("B", 3), ("C", 2)] 3 4 (by decide) (by decide)
    (by decide) ⟨⟨("B", 3), by decide, rfl⟩, by decide⟩ (by decide) (by decide) (by decide)

/-- C3. Quorum rule for the uncontested case. For `total >= 3`, `inactive >= 0`,
`active >= 0`, `active + inactive <= total - 1` and an empty conflict map,
`ZombieDiagnosis` returns `(self, ok)` if and only if `active >= total/2 + 1`, and the
zombie verdict with the empty candidate when `active < total/2 + 1`. Hence, for the same
`total` and `inactive`, going from an `active` below quorum to one at or above it flips the
verdict from zombie to ok, and an ok verdict stays ok for every larger `active`. -/
theorem uncontested_quorum (self : String) (total inactive active : Int)
    (hT : IsInt total) (h3 : 3 ≤ total) (hI : 0 ≤ inactive) (hA : 0 ≤ active)
    (hcons : active + inactive ≤ total - 1) :
    (ZombieDiagnosis self total inactive active [] = (self, none)
      ↔ total / 2 + 1 ≤ active)
    ∧ (active < total / 2 + 1 →
        ZombieDiagnosis self total inactive active []
          = ("", some DiagError.ErrZombieDiscovered))
    ∧ (∀ active' : Int, active' + inactive ≤ total - 1 →
        active < total / 2 + 1 → total / 2 + 1 ≤ active' →
        (ZombieDiagnosis self total inactive active []).2
            = some DiagError.ErrZombieDiscovered
          ∧ (ZombieDiagnosis self total inactive active' []).2 = none)
    ∧ (∀ active' : Int, active ≤ active' → active' + inactive ≤ total - 1 →
        (ZombieDiagnosis self total inactive active []).2 = none →
        (ZombieDiagnosis self total inactive active' []).2 = none) := by
  have h1 : total ≠ 1 := by omega
  have h2 : total ≠ 2 := by omega
  have hg : total ≠ goSub inactive 1 := by
    unfold goSub wrapInt; unfold IsInt at hT; omega
  have hval : ∀ a : Int, ZombieDiagnosis self total inactive a []
      = if total / 2 + 1 ≤ a then (self, none)
        else ("", some DiagError.ErrZombieDiscovered) := by
    intro a
    unfold ZombieDiagnosis
    simp only [h1, h2, hg, if_false, List.length_nil, true_and, quorum_eq hT h3, ge_iff_le]
    by_cases ha : total / 2 + 1 ≤ a
    · simp only [ha, if_true]
    · have hlt : a < total / 2 + 1 := by omega
      simp only [ha, hlt, if_false, if_true]
  refine ⟨?_, ?_, ?_, ?_⟩
  · rw [hval]
    by_cases ha : total / 2 + 1 ≤ active
    · simp [ha]
    · simp [ha]
  · intro hlt
    rw [hval, if_neg (by omega)]
  · intro a' _ hlt hge
    rw [hval, hval, if_neg (by omega), if_pos hge]
    exact ⟨rfl, rfl⟩
  · intro a' hle _ hok
    rw [hval] at hok
    rw [hval]
    by_cases ha : total / 2 + 1 ≤ active
    · rw [if_pos (by omega)]
    · rw [if_neg ha] at hok
      cases hok

theorem uncontested_quorum_witness :
    (ZombieDiagnosis "A" 5 1 3 [] = ("A", none) ↔ (5 : Int) / 2 + 1 ≤ 3)
    ∧ ((3 : Int) < 5 / 2 + 1 →
        ZombieDiagnosis "A" 5 1 3 [] = ("", some DiagError.ErrZombieDiscovered))
    ∧ (∀ active' : Int, active' + 1 ≤ 5 - 1 →
        (3 : Int) < 5 / 2 + 1 → (5 : Int) / 2 + 1 ≤ active' →
        (ZombieDiagnosis "A" 5 1 3 []).2 = some DiagError.ErrZombieDiscovered
          ∧ (ZombieDiagnosis "A" 5 1 active' []).2 = none)
    ∧ (∀ active' : Int, 3 ≤ active' → active' + 1 ≤ 5 - 1 →
        (ZombieDiagnosis "A" 5 1 3 []).2 = none →
        (ZombieDiagnosis "A" 5 1 active' []).2 = none) :=
  uncontested_quorum "A" 5 1 3 (by decide) (by decide) (by decide) (by decide) (by decide)

/-- C4 (the code at the failing input). With `total = 3` and `inactive = 2 = total - 1`
the all-inactive guard, which compares `total` with `inactive - 1`, does not fire, and
with `active = 2` and no conflicting vote the diagnosis is `(self, ok)`. -/
theorem all_inactive_guard_misses :
    ZombieDiagnosis "A" 3 2 2 [] = ("A", none) := by decide

/-! ### Enumeration order -/

theorem tally_highestCount_le_of_perm {l₁ l₂ : List (String × Int)} (h : l₁.Perm l₂) :
    (tally l₁).highestCount ≤ (tally l₂).highestCount := by
  obtain ⟨_, hcase₁⟩ := tally_top l₁
  obtain ⟨hall₂, hcase₂⟩ := tally_top l₂
  rcases hcase₁ with ⟨h0, _⟩ | ⟨_, hfind⟩
  · rcases hcase₂ with ⟨h0', _⟩ | ⟨hpos, _⟩ <;> omega
  · exact hall₂ _ (h.subset (List.mem_of_find?_eq_some hfind))

theorem tally_highestCount_perm {l₁ l₂ : List (String × Int)} (h : l₁.Perm l₂) :
    (tally l₁).highestCount = (tally l₂).highestCount :=
  le_antisymm (tally_highestCount_le_of_perm h) (tally_highestCount_le_of_perm h.symm)

theorem tally_totalConflicts_perm {l₁ l₂ : List (String × Int)} (h : l₁.Perm l₂) :
    (tally l₁).totalConflicts = (tally l₂).totalConflicts := by
  rw [tally_totalConflicts, tally_totalConflicts]
  unfold voteSum
  rw [(h.map Prod.snd).sum_eq]

theorem tally_topCandidate_perm {l₁ l₂ : List (String × Int)} (h : l₁.Perm l₂)
    (hsingle : SingleTop l₁) : (tally l₁).topCandidate = (tally l₂).topCandidate := by
  have hh := tally_highestCount_perm h
  obtain ⟨hall₁, hcase₁⟩ := tally_top l₁
  obtain ⟨hall₂, hcase₂⟩ := tally_top l₂
  rcases hcase₁ with ⟨h0, hc⟩ | ⟨hpos, hfind⟩
  · rcases hcase₂ with ⟨_, hc'⟩ | ⟨hpos', _⟩
    · rw [hc, hc']
    · omega
  · rcases hcase₂ with ⟨h0', _⟩ | ⟨_, hfind'⟩
    · omega
    · have hm₁ := List.mem_of_find?_eq_some hfind
      have hm₂ := h.symm.subset (List.mem_of_find?_eq_some hfind')
      refine hsingle _ hm₁ _ hm₂ hall₁ ?_
      intro r hr
      have := hall₁ r hr
      simp only
      omega

/-- C8 (counterexample). The conflict map `{"B": 2, "C": 2}` with `total = 3`,
`inactive = 0`, `active = 2` gives candidate `"B"` when `"B"` is enumerated first and
candidate `"C"` when `"C"` is enumerated first. -/
theorem enumeration_order_changes_candidate :
    List.Perm [("B", (2 : Int)), ("C", 2)] [("C", 2), ("B", 2)]
    ∧ ZombieDiagnosis "A" 3 0 2 [("B", 2), ("C", 2)]
        = ("B", some DiagError.ErrZombieDiscovered)
    ∧ ZombieDiagnosis "A" 3 0 2 [("C", 2), ("B", 2)]
        = ("C", some DiagError.ErrZombieDiscovered) :=
  ⟨List.Perm.swap _ _ _, by decide, by decide⟩

/-- C8 (amended). Any two enumeration orders of the same conflict map give the same
verdict, and they give the same candidate as well whenever at most one identity holds
the highest vote. -/
theorem enumeration_order_verdict (self : String) (total inactive active : Int)
    (l₁ l₂ : List (String × Int)) (hperm : l₁.Perm l₂) :
    (ZombieDiagnosis self total inactive active l₁).2
        = (ZombieDiagnosis self total inactive active l₂).2
    ∧ (SingleTop l₁ →
        ZombieDiagnosis self total inactive active l₁
          = ZombieDiagnosis self total inactive active l₂) := by
  have hlen := hperm.length_eq
  have hh := tally_highestCount_perm hperm
  have htc := tally_totalConflicts_perm hperm
  constructor
  · unfold ZombieDiagnosis
    simp only [hlen, hh, htc]
    split_ifs <;> rfl
  · intro hsingle
    have hc := tally_topCandidate_perm hperm hsingle
    unfold ZombieDiagnosis
    simp only [hlen, hh, htc, hc]

theorem enumeration_order_verdict_witness :
    SingleTop [("B", 3), ("C", 1)]
    ∧ ZombieDiagnosis "A" 5 0 4 [("B", 3), ("C", 1)]
        = ZombieDiagnosis "A" 5 0 4 [("C", 1), ("B", 3)] :=
  ⟨by decide,
    (enumeration_order_verdict "A" 5 0 4 [("B", 3), ("C", 1)] [("C", 1), ("B", 3)]
      (List.Perm.swap _ _ _)).2 (by decide)⟩

/-! ## Properties of the standby cleaner

`processStandby` is the body of the loop over the listed standbys; a cycle on the primary
runs it once for each listed standby, in listing order, threading the tracker through
(`cycle_primary`, `processStandbys_append`). -/

theorem cycle_primary (listed : List (Standby × Outcome)) (seenAt : SeenAt) :
    cycle (Except.ok "primary") (Except.ok listed) seenAt
      = ((processStandbys seenAt listed).1,
          [Call.CurrentRole, Call.Standbys] ++ (processStandbys seenAt listed).2) := by
  simp [cycle]

theorem processStandbys_append (seenAt : SeenAt) (pre post : List (Standby × Outcome)) :
    processStandbys seenAt (pre ++ post)
      = ((processStandbys (processStandbys seenAt pre).1 post).1,
          (processStandbys seenAt pre).2
            ++ (processStandbys (processStandbys seenAt pre).1 post).2) := by
  induction pre generalizing seenAt with
  | nil => simp [processStandbys]
  | cons x xs ih =>
    obtain ⟨standby, o⟩ := x
    simp [processStandbys, ih]

/-- C9 (counterexample). A cycle on the primary at Unix time `1700000000` with an empty
tracker and one listed standby, id `7`, whose probe fails: the standby has never been seen,
and the cycle issues its unregistration. -/
theorem never_seen_standby_is_unregistered :
    SeenAt.empty 7 = none
    ∧ (cycle (Except.ok "primary")
          (Except.ok [(⟨7, "fdaa::7"⟩, ⟨true, 1700000000, false⟩)]) SeenAt.empty).2
        = [Call.CurrentRole, Call.Standbys, Call.NewRemoteConnection "fdaa::7",
            Call.UnregisterStandby 7] := by
  decide

/-- C9 (amended). For a listed standby that has no entry in the tracker and whose probe
fails at time `now`, the missing entry reads as last-seen `0`, so the elapsed time is `now`
itself: its unregistration is issued if and only if `now >= 600`, and in either case the
standby still has no entry afterwards. -/
theorem untracked_failed_probe (seenAt : SeenAt) (standby : Standby) (o : Outcome)
    (hnone : seenAt standby.Id = none) (hfail : o.connErr = true) (hnow : IsInt o.now) :
    (Call.UnregisterStandby standby.Id ∈ (processStandby seenAt standby o).2
      ↔ 600 ≤ o.now)
    ∧ (processStandby seenAt standby o).1 standby.Id = none := by
  have hget : seenAt.get standby.Id = 0 := by simp [SeenAt.get, hnone]
  have hsub : goSub o.now 0 = o.now := by
    unfold goSub; rw [Int.sub_zero]; exact wrapInt_of_isInt hnow
  unfold processStandby
  rw [hget, hsub, grace_eq]
  simp only [hfail, if_true, ge_iff_le]
  by_cases h : 600 ≤ o.now
  · simp only [h, if_true, true_iff, iff_true]
    cases o.unregisterErr <;> simp [SeenAt.delete, hnone]
  · simp [h, hnone]

theorem untracked_failed_probe_witness :
    (Call.UnregisterStandby 7
        ∈ (processStandby SeenAt.empty ⟨7, "fdaa::7"⟩ ⟨true, 1700000000, false⟩).2
      ↔ (600 : Int) ≤ 1700000000)
    ∧ (processStandby SeenAt.empty ⟨7, "fdaa::7"⟩ ⟨true, 1700000000, false⟩).1 7 = none :=
  untracked_failed_probe SeenAt.empty ⟨7, "fdaa::7"⟩ ⟨true, 1700000000, false⟩
    rfl rfl (by decide)

/-- C10. Cleaner hysteresis. For a listed standby that is tracked with `lastSeenAt = t`
and whose probe fails at time `now`, with `elapsed` the `int64` value of `now - t`: its
unregistration is issued if and only if `elapsed >= 600`, where `600 = 10 * Minute` is the
grace period; when `elapsed < 600` the only call made is the probe and the tracker is left
as it was. Whenever `now - t` fits in an `int64`, `elapsed` is `now - t` itself. -/
theorem cleaner_hysteresis (seenAt : SeenAt) (standby : Standby) (o : Outcome) (t : Int)
    (htracked : seenAt standby.Id = some t) (hfail : o.connErr = true) :
    goMul 10 Minute = 600
    ∧ (Call.UnregisterStandby standby.Id ∈ (processStandby seenAt standby o).2
        ↔ 600 ≤ wrapInt (o.now - t))
    ∧ (wrapInt (o.now - t) < 600 →
        processStandby seenAt standby o = (seenAt, [Call.NewRemoteConnection standby.Ip]))
    ∧ (IsInt (o.now - t) →
        (Call.UnregisterStandby standby.Id ∈ (processStandby seenAt standby o).2
          ↔ 600 ≤ o.now - t)
        ∧ (o.now - t < 600 →
            processStandby seenAt standby o
              = (seenAt, [Call.NewRemoteConnection standby.Ip]))) := by
  have hget : seenAt.get standby.Id = t := by simp [SeenAt.get, htracked]
  have hval : processStandby seenAt standby o =
      if 600 ≤ wrapInt (o.now - t) then
        if o.unregisterErr then
          (seenAt, [Call.NewRemoteConnection standby.Ip, Call.UnregisterStandby standby.Id])
        else
          (seenAt.delete standby.Id,
            [Call.NewRemoteConnection standby.Ip, Call.UnregisterStandby standby.Id])
      else (seenAt, [Call.NewRemoteConnection standby.Ip]) := by
    unfold processStandby
    rw [hget, grace_eq]
    simp only [hfail, if_true, ge_iff_le, goSub]
  have hiff : Call.UnregisterStandby standby.Id ∈ (processStandby seenAt standby o).2
      ↔ 600 ≤ wrapInt (o.now - t) := by
    rw [hval]
    by_cases h : 600 ≤ wrapInt (o.now - t)
    · simp only [h, if_true, iff_true]
      cases o.unregisterErr <;> simp
    · simp [h]
  have hkeep : wrapInt (o.now - t) < 600 →
      processStandby seenAt standby o = (seenAt, [Call.NewRemoteConnection standby.Ip]) := by
    intro h
    rw [hval, if_neg (by omega)]
  refine ⟨grace_eq, hiff, hkeep, ?_⟩
  intro hfit
  rw [← wrapInt_of_isInt hfit]
  exact ⟨hiff, hkeep⟩

theorem cleaner_hysteresis_witness :
    goMul 10 Minute = 600
    ∧ Call.UnregisterStandby 7
        ∈ (processStandby (SeenAt.set SeenAt.empty 7 1000) ⟨7, "fdaa::7"⟩
            ⟨true, 1600, false⟩).2
    ∧ processStandby (SeenAt.set SeenAt.empty 7 1000) ⟨7, "fdaa::7"⟩ ⟨true, 1599, false⟩
        = (SeenAt.set SeenAt.empty 7 1000, [Call.NewRemoteConnection "fdaa::7"]) :=
  ⟨grace_eq,
    (cleaner_hysteresis (SeenAt.set SeenAt.empty 7 1000) ⟨7, "fdaa::7"⟩
      ⟨true, 1600, false⟩ 1000 rfl rfl).2.1.mpr (by decide),
    (cleaner_hysteresis (SeenAt.set SeenAt.empty 7 1000) ⟨7, "fdaa::7"⟩
      ⟨true, 1599, false⟩ 1000 rfl rfl).2.2.1 (by decide)⟩

/-! ### Frame lemmas for the loop over the listing -/

theorem processStandby_other (seenAt : SeenAt) (standby : Standby) (o : Outcome) (id : Int)
    (h : standby.Id ≠ id) :
    (processStandby seenAt standby o).1 id = seenAt id
    ∧ Call.UnregisterStandby id ∉ (processStandby seenAt standby o).2 := by
  have h' : id ≠ standby.Id := fun e => h e.symm
  unfold processStandby
  split_ifs <;> simp [SeenAt.delete, SeenAt.set, h, h']

theorem processStandbys_other (seenAt : SeenAt) (l : List (Standby × Outcome)) (id : Int)
    (h : ∀ x ∈ l, x.1.Id ≠ id) :
    (processStandbys seenAt l).1 id = seenAt id
    ∧ Call.UnregisterStandby id ∉ (processStandbys seenAt l).2 := by
  induction l generalizing seenAt with
  | nil => simp [processStandbys]
  | cons x xs ih =>
    obtain ⟨standby, o⟩ := x
    have hx : standby.Id ≠ id := h (standby, o) (List.mem_cons_self _ _)
    have hxs : ∀ y ∈ xs, y.1.Id ≠ id := fun y hy => h y (List.mem_cons_of_mem _ hy)
    obtain ⟨h1, h2⟩ := processStandby_other seenAt standby o id hx
    obtain ⟨h3, h4⟩ := ih (processStandby seenAt standby o).1 hxs
    simp only [processStandbys]
    refine ⟨by rw [h3, h1], ?_⟩
    intro hmem
    rcases List.mem_append.mp hmem with hm | hm
    · exact h2 hm
    · exact h4 hm

/-- What the loop body does for a standby depends on the tracker only through the entry
of that standby. -/
theorem processStandby_congr (m m' : SeenAt) (standby : Standby) (o : Outcome)
    (h : m' standby.Id = m standby.Id) :
    (processStandby m' standby o).1 standby.Id = (processStandby m standby o).1 standby.Id
    ∧ (processStandby m' standby o).2 = (processStandby m standby o).2 := by
  have hget : SeenAt.get m' standby.Id = SeenAt.get m standby.Id := by
    simp [SeenAt.get, h]
  unfold processStandby
  rw [hget]
  split_ifs <;> simp [SeenAt.delete, SeenAt.set, h]

/-- In a cycle on the primary whose listing holds a standby once, the entry of that
standby afterwards and the unregistration issued for it are those of the loop body run
on the tracker the cycle started from. -/
theorem cycle_listsOnce (seenAt : SeenAt) (listed : List (Standby × Outcome))
    (standby : Standby) (o : Outcome) (h : ListsOnce listed standby o) :
    (cycle (Except.ok "primary") (Except.ok listed) seenAt).1 standby.Id
        = (processStandby seenAt standby o).1 standby.Id
    ∧ (Call.UnregisterStandby standby.Id
          ∈ (cycle (Except.ok "primary") (Except.ok listed) seenAt).2
        ↔ Call.UnregisterStandby standby.Id ∈ (processStandby seenAt standby o).2) := by
  obtain ⟨pre, post, hl, hpre, hpost⟩ := h
  obtain ⟨hp1, hp2⟩ := processStandbys_other seenAt pre standby.Id hpre
  obtain ⟨hc1, hc2⟩ := processStandby_congr seenAt (processStandbys seenAt pre).1 standby o hp1
  obtain ⟨hq1, hq2⟩ := processStandbys_other
    (processStandby (processStandbys seenAt pre).1 standby o).1 post standby.Id hpost
  rw [cycle_primary, hl, processStandbys_append]
  simp only [processStandbys]
  refine ⟨by rw [hq1, hc1], ?_⟩
  rw [hc2]
  simp [hp2, hq2]

/-- The loop body on a failed probe, written out. -/
theorem processStandby_failed (seenAt : SeenAt) (standby : Standby) (o : Outcome)
    (hfail : o.connErr = true) :
    processStandby seenAt standby o =
      if 600 ≤ wrapInt (o.now - seenAt.get standby.Id) then
        if o.unregisterErr then
          (seenAt, [Call.NewRemoteConnection standby.Ip, Call.UnregisterStandby standby.Id])
        else
          (seenAt.delete standby.Id,
            [Call.NewRemoteConnection standby.Ip, Call.UnregisterStandby standby.Id])
      else (seenAt, [Call.NewRemoteConnection standby.Ip]) := by
  unfold processStandby
  rw [grace_eq]
  simp only [hfail, if_true, ge_iff_le, goSub]

/-- The loop body on a successful probe, written out. -/
theorem processStandby_succeeded (seenAt : SeenAt) (standby : Standby) (o : Outcome)
    (hok : o.connErr = false) :
    processStandby seenAt standby o
      = (seenAt.set standby.Id o.now, [Call.NewRemoteConnection standby.Ip, Call.Close]) := by
  unfold processStandby
  simp [hok]

/-- A cycle of the run in which the probe of a tracked standby fails and unregistration
would succeed. -/
theorem cleanerRun_succ_failed (seenAt : SeenAt) (listing : Nat → List (Standby × Outcome))
    (standby : Standby) (t now : Int) (n : Nat)
    (hprev : (cleanerRun seenAt listing n).1 standby.Id = some t)
    (hl : ListsOnce (listing (n + 1)) standby ⟨true, now, false⟩) :
    (cleanerRun seenAt listing (n + 1)).1 standby.Id
        = (if 600 ≤ wrapInt (now - t) then none else some t)
    ∧ (Call.UnregisterStandby standby.Id ∈ (cleanerRun seenAt listing (n + 1)).2
        ↔ 600 ≤ wrapInt (now - t)) := by
  have hget : SeenAt.get (cleanerRun seenAt listing n).1 standby.Id = t := by
    simp [SeenAt.get, hprev]
  obtain ⟨h1, h2⟩ := cycle_listsOnce (cleanerRun seenAt listing n).1 (listing (n + 1))
    standby _ hl
  simp only [cleanerRun]
  rw [h1, h2, processStandby_failed _ _ _ rfl, hget]
  by_cases h : 600 ≤ wrapInt (now - t)
  · simp [h, SeenAt.delete]
  · simp [h, hprev]

/-- The elapsed time in cycle `k` of a run ticking every five seconds from `t0`. -/
theorem elapsed_of_tick (t0 : Int) (k : Nat) (hk : k ≤ 120) :
    wrapInt (t0 + tickSeconds * (k : Int) - t0) = 5 * (k : Int) := by
  have h : t0 + tickSeconds * (k : Int) - t0 = 5 * (k : Int) := by
    unfold tickSeconds; omega
  rw [h]
  exact wrapInt_of_isInt ⟨by omega, by omega⟩

/-- The tracker over the failing cycles that come before the grace period has passed. -/
theorem cleanerRun_within_grace (seenAt : SeenAt) (listing : Nat → List (Standby × Outcome))
    (standby : Standby) (t0 : Int) (u : Bool)
    (h0 : ListsOnce (listing 0) standby ⟨false, t0, u⟩)
    (hfail : ∀ k : Nat, 1 ≤ k →
      ListsOnce (listing k) standby ⟨true, t0 + tickSeconds * k, false⟩)
    (k : Nat) (hk : k < 120) :
    (cleanerRun seenAt listing k).1 standby.Id = some t0 := by
  induction k with
  | zero =>
    simp only [cleanerRun]
    rw [(cycle_listsOnce seenAt (listing 0) standby _ h0).1, processStandby_succeeded _ _ _ rfl]
    simp [SeenAt.set]
  | succ n ih =>
    have hprev := ih (by omega)
    have hlt : ¬ 600 ≤ wrapInt (t0 + tickSeconds * ((n + 1 : Nat) : Int) - t0) := by
      rw [elapsed_of_tick t0 (n + 1) (by omega)]; omega
    rw [(cleanerRun_succ_failed seenAt listing standby t0 _ n hprev
      (hfail (n + 1) (by omega))).1, if_neg hlt]

/-- C11. Eviction timing across cycles. A standby whose probe succeeds in the cycle at
time `t0` (cycle `0`) and fails in every later cycle, cycle `k` running on the primary at
time `t0 + 5 k` with unregistration succeeding: in every failing cycle `k < 120`, where
the elapsed time `5 k` is below `600`, no unregistration is issued for it and it stays
tracked with `lastSeenAt = t0`; in cycle `120 = 600 / 5`, the first where the elapsed time
reaches `600`, it is unregistered and removed from the tracker. -/
theorem eviction_after_grace (seenAt : SeenAt) (listing : Nat → List (Standby × Outcome))
    (standby : Standby) (t0 : Int) (u : Bool)
    (h0 : ListsOnce (listing 0) standby ⟨false, t0, u⟩)
    (hfail : ∀ k : Nat, 1 ≤ k →
      ListsOnce (listing k) standby ⟨true, t0 + tickSeconds * k, false⟩) :
    goMul 10 Minute / tickSeconds = 120
    ∧ (cleanerRun seenAt listing 0).1 standby.Id = some t0
    ∧ (∀ k : Nat, 1 ≤ k → k < 120 →
        Call.UnregisterStandby standby.Id ∉ (cleanerRun seenAt listing k).2
        ∧ (cleanerRun seenAt listing k).1 standby.Id = some t0)
    ∧ Call.UnregisterStandby standby.Id ∈ (cleanerRun seenAt listing 120).2
    ∧ (cleanerRun seenAt listing 120).1 standby.Id = none := by
  have htrack := cleanerRun_within_grace seenAt listing standby t0 u h0 hfail
  have hlast := cleanerRun_succ_failed seenAt listing standby t0 _ 119
    (htrack 119 (by omega)) (hfail (119 + 1) (by omega))
  have hge : 600 ≤ wrapInt (t0 + tickSeconds * ((119 + 1 : Nat) : Int) - t0) := by
    rw [elapsed_of_tick t0 (119 + 1) (by omega)]; omega
  refine ⟨by decide, htrack 0 (by omega), ?_, hlast.2.mpr hge, ?_⟩
  · intro k hk1 hk
    obtain ⟨n, rfl⟩ : ∃ n, k = n + 1 := ⟨k - 1, by omega⟩
    refine ⟨?_, htrack (n + 1) hk⟩
    have hlt : ¬ 600 ≤ wrapInt (t0 + tickSeconds * ((n + 1 : Nat) : Int) - t0) := by
      rw [elapsed_of_tick t0 (n + 1) (by omega)]; omega
    rw [(cleanerRun_succ_failed seenAt listing standby t0 _ n (htrack n (by omega))
      (hfail (n + 1) (by omega))).2]
    exact hlt
  · have h := hlast.1
    rw [if_pos hge] at h
    exact h

theorem eviction_after_grace_witness :
    Call.UnregisterStandby 7
        ∈ (cleanerRun SeenAt.empty
            (fun k => [(⟨7, "fdaa::7"⟩,
              if k = 0 then ⟨false, 1000, false⟩ else ⟨true, 1000 + tickSeconds * k, false⟩)])
            120).2
    ∧ (cleanerRun SeenAt.empty
          (fun k => [(⟨7, "fdaa::7"⟩,
            if k = 0 then ⟨false, 1000, false⟩ else ⟨true, 1000 + tickSeconds * k, false⟩)])
          119).1 7 = some 1000 :=
  have h := eviction_after_grace SeenAt.empty
    (fun k => [(⟨7, "fdaa::7"⟩,
      if k = 0 then ⟨false, 1000, false⟩ else ⟨true, 1000 + tickSeconds * k, false⟩)])
    ⟨7, "fdaa::7"⟩ 1000 false
    ⟨[], [], by simp, by simp, by simp⟩
    (fun k hk => ⟨[], [], by
      have : k ≠ 0 := by omega
      simp [this], by simp, by simp⟩)
  ⟨by simpa using h.2.2.2.1, by simpa using (h.2.2.1 119 (by omega) (by omega)).2⟩

/-- C12 (counterexample). On an empty tracker a first cycle on the primary lists standby
`7`, whose probe succeeds at time `1000`; a second cycle lists only standby `8`. After the
second cycle, which completed with a successful listing, id `7` still has its entry
although it is not in that cycle's listing. -/
theorem unlisted_standby_stays_tracked :
    (cycle (Except.ok "primary")
        (Except.ok [(⟨8, "fdaa::8"⟩, ⟨false, 1005, false⟩)])
        (cycle (Except.ok "primary")
          (Except.ok [(⟨7, "fdaa::7"⟩, ⟨false, 1000, false⟩)]) SeenAt.empty).1).1 7
      = some 1000
    ∧ (7 : Int) ∉ List.map (fun x => x.1.Id)
        [((⟨8, "fdaa::8"⟩ : Standby), (⟨false, 1005, false⟩ : Outcome))] := by
  decide

/-- C12 (amended). A cycle never touches the record of a standby that is missing from the
listing: after every completed cleaner cycle on the primary whose standby listing
succeeded, the tracker entry of every id that does not appear in that cycle's listing is
what it was before the cycle, and no unregistration is issued for it. -/
theorem unlisted_entry_unchanged (seenAt : SeenAt) (listed : List (Standby × Outcome))
    (id : Int) (hout : ∀ x ∈ listed, x.1.Id ≠ id) :
    (cycle (Except.ok "primary") (Except.ok listed) seenAt).1 id = seenAt id
    ∧ Call.UnregisterStandby id
        ∉ (cycle (Except.ok "primary") (Except.ok listed) seenAt).2 := by
  obtain ⟨h1, h2⟩ := processStandbys_other seenAt listed id hout
  rw [cycle_primary]
  refine ⟨h1, ?_⟩
  simp [h2]

theorem unlisted_entry_unchanged_witness :
    (cycle (Except.ok "primary") (Except.ok [(⟨8, "fdaa::8"⟩, ⟨true, 1700, false⟩)])
        (SeenAt.set SeenAt.empty 7 1000)).1 7
      = SeenAt.set SeenAt.empty 7 1000 7
    ∧ Call.UnregisterStandby 7
        ∉ (cycle (Except.ok "primary") (Except.ok [(⟨8, "fdaa::8"⟩, ⟨true, 1700, false⟩)])
            (SeenAt.set SeenAt.empty 7 1000)).2 :=
  unlisted_entry_unchanged (SeenAt.set SeenAt.empty 7 1000)
    [(⟨8, "fdaa::8"⟩, ⟨true, 1700, false⟩)] 7 (by decide)

/-- C13. Eviction outcome atomicity. When the loop body issues the unregistration of a
standby: if the unregistration fails, the tracker is left as it was, the calls made for
that standby are the probe and the one unregistration, and the loop goes on with the
next standby on the unchanged tracker; if it succeeds, that standby's entry is removed
and every other entry is unchanged. -/
theorem eviction_outcome (seenAt : SeenAt) (standby : Standby) (o : Outcome)
    (rest : List (Standby × Outcome))
    (hissued : Call.UnregisterStandby standby.Id ∈ (processStandby seenAt standby o).2) :
    (processStandby seenAt standby o).2
        = [Call.NewRemoteConnection standby.Ip, Call.UnregisterStandby standby.Id]
    ∧ (o.unregisterErr = true →
        (processStandby seenAt standby o).1 = seenAt
        ∧ processStandbys seenAt ((standby, o) :: rest)
            = ((processStandbys seenAt rest).1,
                [Call.NewRemoteConnection standby.Ip, Call.UnregisterStandby standby.Id]
                  ++ (processStandbys seenAt rest).2))
    ∧ (o.unregisterErr = false →
        (processStandby seenAt standby o).1 standby.Id = none
        ∧ ∀ j : Int, j ≠ standby.Id → (processStandby seenAt standby o).1 j = seenAt j) := by
  have hfail : o.connErr = true := by
    by_contra hc
    have hok : o.connErr = false := by simpa using hc
    rw [processStandby_succeeded _ _ _ hok] at hissued
    simp at hissued
  rw [processStandby_failed _ _ _ hfail] at hissued
  have hge : 600 ≤ wrapInt (o.now - seenAt.get standby.Id) := by
    by_contra hlt
    rw [if_neg hlt] at hissued
    simp at hissued
  simp only [processStandbys]
  rw [processStandby_failed _ _ _ hfail, if_pos hge]
  refine ⟨?_, ?_, ?_⟩
  · cases o.unregisterErr <;> simp
  · intro hu
    simp [hu]
  · intro hu
    simp only [hu]
    refine ⟨by simp [SeenAt.delete], ?_⟩
    intro j hj
    simp [SeenAt.delete, hj]

theorem eviction_outcome_witness :
    (processStandby (SeenAt.set SeenAt.empty 7 1000) ⟨7, "fdaa::7"⟩ ⟨true, 1600, true⟩).1
        = SeenAt.set SeenAt.empty 7 1000
    ∧ (processStandby (SeenAt.set SeenAt.empty 7 1000) ⟨7, "fdaa::7"⟩
          ⟨true, 1600, false⟩).1 7 = none :=
  ⟨((eviction_outcome (SeenAt.set SeenAt.empty 7 1000) ⟨7, "fdaa::7"⟩ ⟨true, 1600, true⟩ []
      (by decide)).2.1 rfl).1,
    ((eviction_outcome (SeenAt.set SeenAt.empty 7 1000) ⟨7, "fdaa::7"⟩ ⟨true, 1600, false⟩ []
      (by decide)).2.2 rfl).1⟩

/-- C14. Skipped cycles do nothing. For every tracker, a cycle in which the role query
fails, or the role is anything other than `"primary"`, or the standby listing fails,
leaves the tracker unchanged, probes no standby and issues no unregistration. -/
theorem skipped_cycle (seenAt : SeenAt) (role : Except String String)
    (standbys : Except String (List (Standby × Outcome)))
    (hskip : (∃ e, role = Except.error e) ∨ (∃ r, role = Except.ok r ∧ r ≠ "primary")
      ∨ (∃ e, standbys = Except.error e)) :
    (cycle role standbys seenAt).1 = seenAt
    ∧ ∀ c ∈ (cycle role standbys seenAt).2,
        (∀ ip, c ≠ Call.NewRemoteConnection ip) ∧ (∀ id, c ≠ Call.UnregisterStandby id) := by
  rcases hskip with ⟨e, rfl⟩ | ⟨r, rfl, hr⟩ | ⟨e, rfl⟩
  · simp [cycle]
  · simp [cycle, hr]
  · cases role with
    | error e' => simp [cycle]
    | ok r =>
      by_cases hr : r = "primary"
      · simp [cycle, hr]
      · simp [cycle, hr]

theorem skipped_cycle_witness :
    (cycle (Except.ok "standby") (Except.ok [(⟨7, "fdaa::7"⟩, ⟨true, 1700, false⟩)])
        (SeenAt.set SeenAt.empty 7 1000)).1 = SeenAt.set SeenAt.empty 7 1000
    ∧ ∀ c ∈ (cycle (Except.ok "standby")
          (Except.ok [(⟨7, "fdaa::7"⟩, ⟨true, 1700, false⟩)])
          (SeenAt.set SeenAt.empty 7 1000)).2,
        (∀ ip, c ≠ Call.NewRemoteConnection ip) ∧ (∀ id, c ≠ Call.UnregisterStandby id) :=
  skipped_cycle (SeenAt.set SeenAt.empty 7 1000) (Except.ok "standby")
    (Except.ok [(⟨7, "fdaa::7"⟩, ⟨true, 1700, false⟩)])
    (Or.inr (Or.inl ⟨"standby", rfl, by decide⟩))

/-- C15. Successful probe. For a listed standby whose probe succeeds at time `now`, the
tracker after the loop body maps that standby's id to `now`, whether or not it had an
entry, the entries of all other ids are unchanged, and the calls made are the probe and
the close of its connection, so no unregistration is issued. -/
theorem successful_probe (seenAt : SeenAt) (standby : Standby) (o : Outcome)
    (hok : o.connErr = false) :
    (processStandby seenAt standby o).1 standby.Id = some o.now
    ∧ (∀ j : Int, j ≠ standby.Id → (processStandby seenAt standby o).1 j = seenAt j)
    ∧ (processStandby seenAt standby o).2 = [Call.NewRemoteConnection standby.Ip, Call.Close]
    ∧ ∀ id : Int, Call.UnregisterStandby id ∉ (processStandby seenAt standby o).2 := by
  rw [processStandby_succeeded _ _ _ hok]
  refine ⟨by simp [SeenAt.set], ?_, rfl, by simp⟩
  intro j hj
  simp [SeenAt.set, hj]

theorem successful_probe_witness :
    (processStandby SeenAt.empty ⟨7, "fdaa::7"⟩ ⟨false, 1000, false⟩).1 7 = some 1000
    ∧ (processStandby (SeenAt.set SeenAt.empty 7 1000) ⟨7, "fdaa::7"⟩
          ⟨false, 1005, false⟩).1 7 = some 1005 :=
  ⟨(successful_probe SeenAt.empty ⟨7, "fdaa::7"⟩ ⟨false, 1000, false⟩ rfl).1,
    (successful_probe (SeenAt.set SeenAt.empty 7 1000) ⟨7, "fdaa::7"⟩
      ⟨false, 1005, false⟩ rfl).1⟩

/-! ## Properties of the zombie lock store -/

/-- A successful `writeZombieLock` leaves the marker present with exactly the identity
written. -/
theorem writeZombieLock_ok (id : String) (fault : Option Marker) (prior : Marker)
    (hwrite : (writeZombieLock id fault prior).2 = none) :
    (writeZombieLock id fault prior).1 = some id := by
  cases fault with
  | none => simp [writeZombieLock, ioutilWriteFile]
  | some left => simp [writeZombieLock, ioutilWriteFile] at hwrite

/-- `ZombieLockExists` answers `true` when `os.Stat` meets an error other than absence,
whatever the state of the marker. -/
theorem ZombieLockExists_of_stat_fault (marker : Marker) :
    ZombieLockExists true marker = true := by
  simp [ZombieLockExists, osStat, IsNotExist]

/-- C16. Lock store round trip. For every identity `id` and every prior state of the
marker, a `writeZombieLock(id)` that returns no error followed by a `readZombieLock()`
returns exactly `id` and no error, whatever the marker held before. -/
theorem lock_round_trip (id : String) (prior : Marker) (fault : Option Marker)
    (hwrite : (writeZombieLock id fault prior).2 = none) :
    readZombieLock false (writeZombieLock id fault prior).1 = (id, none) := by
  rw [writeZombieLock_ok id fault prior hwrite]
  simp [readZombieLock, ioutilReadFile]

theorem lock_round_trip_witness :
    readZombieLock false (writeZombieLock "node-b" none (some "node-a")).1
      = ("node-b", none) :=
  lock_round_trip "node-b" (some "node-a") none rfl

/-- C17. Lock store presence. Over the single-slot marker, `ZombieLockExists()` returns
`true` if and only if the marker is present; it returns `true` after a successful
`writeZombieLock` and `false` after a successful `removeZombieLock`; and on an absent
marker `removeZombieLock` and `readZombieLock` both fail, the marker staying absent. -/
theorem lock_presence (marker : Marker) :
    (ZombieLockExists false marker = true ↔ marker ≠ none)
    ∧ (∀ (id : String) (fault : Option Marker),
        (writeZombieLock id fault marker).2 = none →
        ZombieLockExists false (writeZombieLock id fault marker).1 = true)
    ∧ (∀ fault : Bool, (removeZombieLock fault marker).2 = none →
        ZombieLockExists false (removeZombieLock fault marker).1 = false)
    ∧ (∀ fault : Bool, (removeZombieLock fault none).2 ≠ none
        ∧ (removeZombieLock fault none).1 = none)
    ∧ (∀ fault : Bool, (readZombieLock fault none).2 ≠ none) := by
  refine ⟨?_, ?_, ?_, ?_, ?_⟩
  · cases marker <;> simp [ZombieLockExists, osStat, IsNotExist]
  · intro id fault hwrite
    rw [writeZombieLock_ok id fault marker hwrite]
    simp [ZombieLockExists, osStat, IsNotExist]
  · intro fault hremove
    cases fault <;> cases marker <;>
      simp [removeZombieLock, osRemove, ZombieLockExists, osStat, IsNotExist] at hremove ⊢
  · intro fault
    cases fault <;> simp [removeZombieLock, osRemove]
  · intro fault
    cases fault <;> simp [readZombieLock, ioutilReadFile]

/-! ## Further properties of `ZombieDiagnosis` -/

/-- Go's `x / 2`, truncated towards zero, in terms of the floor division. -/
theorem tdiv_two_spec (x : Int) :
    (0 ≤ x → Int.tdiv x 2 = x / 2) ∧ (x < 0 → Int.tdiv x 2 = -((-x) / 2)) := by
  constructor
  · intro h
    exact Int.tdiv_eq_ediv h (by decide)
  · intro h
    have h1 : Int.tdiv (-(-x)) 2 = -(Int.tdiv (-x) 2) := Int.neg_tdiv _ _
    rw [Int.neg_neg] at h1
    rw [h1, Int.tdiv_eq_ediv (by omega) (by decide)]

/-- The quorum is computed without wrap around for every `int` value of `total`. -/
theorem quorum_eq_tdiv {total : Int} (hT : IsInt total) :
    goAdd (goDiv total 2) 1 = Int.tdiv total 2 + 1 := by
  obtain ⟨hpos, hneg⟩ := tdiv_two_spec total
  unfold goAdd goDiv wrapInt
  unfold IsInt at hT
  by_cases h : 0 ≤ total
  · rw [hpos h]; omega
  · rw [hneg (by omega)]; omega

/-- The branches of `ZombieDiagnosis` past the one and two node clusters, with the
quorum, the inferred own count and the outcome of the tally loop written out. -/
theorem ZombieDiagnosis_unfold (self : String) (total inactive active : Int)
    (l : List (String × Int)) (hT : IsInt total) (h1 : total ≠ 1) (h2 : total ≠ 2) :
    ZombieDiagnosis self total inactive active l =
      if total = goSub inactive 1 then ("", some DiagError.ErrZombieDiscovered)
      else if l = [] ∧ Int.tdiv total 2 + 1 ≤ active then (self, none)
      else if active < Int.tdiv total 2 + 1 then ("", some DiagError.ErrZombieDiscovered)
      else if max (wrapInt (total - inactive - voteSum l)) (tally l).highestCount
          < Int.tdiv total 2 + 1 then
        ("", some DiagError.ErrZombieDiscovered)
      else
        (if wrapInt (total - inactive - voteSum l) > (tally l).highestCount then self
          else (tally l).topCandidate, some DiagError.ErrZombieDiscovered) := by
  have hmy : goSub (goSub total inactive) (tally l).totalConflicts
      = wrapInt (total - inactive - voteSum l) := by
    rw [tally_totalConflicts]
    unfold goSub
    rw [wrapInt_sub_wrapInt, wrapInt_wrapInt_sub]
  unfold ZombieDiagnosis
  simp only [h1, h2, if_false, quorum_eq_tdiv hT, hmy, List.length_eq_zero, ge_iff_le]
  by_cases hgt : wrapInt (total - inactive - voteSum l) > (tally l).highestCount
  · have hm : max (wrapInt (total - inactive - voteSum l)) (tally l).highestCount
        = wrapInt (total - inactive - voteSum l) := max_eq_left (by omega)
    simp only [hgt, if_true, hm]
  · have hm : max (wrapInt (total - inactive - voteSum l)) (tally l).highestCount
        = (tally l).highestCount := max_eq_right (by omega)
    simp only [hgt, if_false, hm]

/-- C19. With consistent counts (`active + inactive <= total - 1`; the bounds
`active >= 0` and `inactive >= 0` are not needed), a node of a cluster of at least three
members that sees every peer inactive (`inactive == total - 1`) gets the zombie verdict
with the empty candidate, for every conflict map, although the all-inactive guard of the
code compares `total` with `inactive - 1`. -/
theorem all_inactive_consistent (self : String) (total inactive active : Int)
    (conflictVotes : List (String × Int))
    (hT : IsInt total) (h3 : 3 ≤ total)
    (hcons : active + inactive ≤ total - 1) (hall : inactive = total - 1) :
    ZombieDiagnosis self total inactive active conflictVotes
      = ("", some DiagError.ErrZombieDiscovered) := by
  have hq : Int.tdiv total 2 = total / 2 := (tdiv_two_spec total).1 (by omega)
  have hlt : active < Int.tdiv total 2 + 1 := by rw [hq]; omega
  have hnle : ¬ Int.tdiv total 2 + 1 ≤ active := by omega
  rw [ZombieDiagnosis_unfold self total inactive active conflictVotes hT (by omega) (by omega)]
  by_cases hg : total = goSub inactive 1
  · rw [if_pos hg]
  · rw [if_neg hg, if_neg (fun h => hnle h.2), if_pos hlt]

theorem all_inactive_consistent_witness :
    ZombieDiagnosis "A" 3 2 0 [("B", 1)] = ("", some DiagError.ErrZombieDiscovered) :=
  all_inactive_consistent "A" 3 2 0 [("B", 1)] (by decide) (by decide) (by decide)
    (by decide)

/-- C18. A rejoin hint always holds a majority. For every input, when `ZombieDiagnosis`
returns the zombie verdict with a non-empty candidate `c`, then with
`quorum = total/2 + 1` (Go's division) either `c` is `self` and the `int` value of
`total - inactive - (sum of all votes)` is at least `quorum`, or `c` is a key of the
conflict map whose vote is at least `quorum`. Whatever the verdict, the candidate is
empty, `self`, or a key of the conflict map. -/
theorem rejoin_hint_majority (self : String) (total inactive active : Int)
    (conflictVotes : List (String × Int)) (hT : IsInt total) :
    (∀ c : String,
        ZombieDiagnosis self total inactive active conflictVotes
            = (c, some DiagError.ErrZombieDiscovered) →
        c ≠ "" →
        (c = self
            ∧ Int.tdiv total 2 + 1 ≤ wrapInt (total - inactive - voteSum conflictVotes))
          ∨ ∃ v : Int, (c, v) ∈ conflictVotes ∧ Int.tdiv total 2 + 1 ≤ v)
    ∧ ((ZombieDiagnosis self total inactive active conflictVotes).1 = ""
        ∨ (ZombieDiagnosis self total inactive active conflictVotes).1 = self
        ∨ (ZombieDiagnosis self total inactive active conflictVotes).1
            ∈ conflictVotes.map Prod.fst) := by
  by_cases h1 : total = 1
  · subst h1
    simp [ZombieDiagnosis]
  by_cases h2 : total = 2
  · subst h2
    by_cases hz : conflictVotes.length > 0 ∨ inactive = 1
    · have hv : ZombieDiagnosis self 2 inactive active conflictVotes
          = ("", some DiagError.ErrZombieDiscovered) := by
        unfold ZombieDiagnosis; simp only [if_pos hz]; rfl
      rw [hv]
      refine ⟨?_, Or.inl rfl⟩
      intro c hc hne
      exact absurd (congrArg Prod.fst hc).symm hne
    · have hv : ZombieDiagnosis self 2 inactive active conflictVotes = (self, none) := by
        unfold ZombieDiagnosis; simp only [if_neg hz]; rfl
      rw [hv]
      refine ⟨?_, Or.inr (Or.inl rfl)⟩
      intro c hc
      cases (congrArg Prod.snd hc)
  rw [ZombieDiagnosis_unfold self total inactive active conflictVotes hT h1 h2]
  obtain ⟨_, hcase⟩ := tally_top conflictVotes
  split_ifs with hg hok hlt hmax hmy
  · refine ⟨?_, Or.inl rfl⟩
    intro c hc hne
    exact absurd (congrArg Prod.fst hc).symm hne
  · refine ⟨?_, Or.inr (Or.inl rfl)⟩
    intro c hc
    cases (congrArg Prod.snd hc)
  · refine ⟨?_, Or.inl rfl⟩
    intro c hc hne
    exact absurd (congrArg Prod.fst hc).symm hne
  · refine ⟨?_, Or.inl rfl⟩
    intro c hc hne
    exact absurd (congrArg Prod.fst hc).symm hne
  · refine ⟨?_, Or.inr (Or.inl rfl)⟩
    intro c hc _
    have hcs : self = c := congrArg Prod.fst hc
    have := le_max_iff.mp (not_lt.mp hmax)
    exact Or.inl ⟨hcs.symm, by omega⟩
  · have hq : Int.tdiv total 2 + 1 ≤ (tally conflictVotes).highestCount := by
      have := le_max_iff.mp (not_lt.mp hmax)
      omega
    rcases hcase with ⟨h0, hc0⟩ | ⟨hpos, hfind⟩
    · refine ⟨?_, Or.inl hc0⟩
      intro c hc hne
      have hcs : (tally conflictVotes).topCandidate = c := congrArg Prod.fst hc
      exact absurd (hcs.symm.trans hc0) hne
    · have hmem := List.mem_of_find?_eq_some hfind
      refine ⟨?_, Or.inr (Or.inr (List.mem_map.mpr ⟨_, hmem, rfl⟩))⟩
      intro c hc _
      have hcs : (tally conflictVotes).topCandidate = c := congrArg Prod.fst hc
      exact Or.inr ⟨_, hcs ▸ hmem, hq⟩

theorem rejoin_hint_majority_witness :
    (("X" : String) = "self"
        ∧ Int.tdiv 5 2 + 1 ≤ wrapInt (5 - 0 - voteSum [("X", 3)]))
      ∨ ∃ v : Int, ("X", v) ∈ [(("X" : String), (3 : Int))] ∧ Int.tdiv 5 2 + 1 ≤ v :=
  (rejoin_hint_majority "self" 5 0 4 [("X", 3)] (by decide)).1 "X" (by decide) (by decide)

/-! ### Ties on consistent input -/

theorem voteSum_nonneg {l : List (String × Int)} (hnn : ∀ p ∈ l, 0 ≤ p.2) :
    0 ≤ voteSum l := by
  induction l with
  | nil => simp [voteSum]
  | cons a t ih =>
    have ha : 0 ≤ a.2 := hnn a (List.mem_cons_self _ _)
    have ht := ih (fun p hp => hnn p (List.mem_cons_of_mem _ hp))
    have hs : voteSum (a :: t) = a.2 + voteSum t := by simp [voteSum]
    rw [hs]; omega

theorem le_voteSum_of_mem {l : List (String × Int)} (hnn : ∀ p ∈ l, 0 ≤ p.2)
    {x : String × Int} (hx : x ∈ l) : x.2 ≤ voteSum l := by
  induction l with
  | nil => cases hx
  | cons a t ih =>
    have ha : 0 ≤ a.2 := hnn a (List.mem_cons_self _ _)
    have ht : ∀ p ∈ t, 0 ≤ p.2 := fun p hp => hnn p (List.mem_cons_of_mem _ hp)
    have hs : voteSum (a :: t) = a.2 + voteSum t := by simp [voteSum]
    rw [hs]
    rcases List.mem_cons.mp hx with rfl | hx
    · have := voteSum_nonneg ht
      omega
    · have := ih ht hx
      omega

/-- Two different entries of a conflict map with non-negative votes hold, together, at most
the sum of all votes. -/
theorem add_le_voteSum_of_ne {l : List (String × Int)} (hnn : ∀ p ∈ l, 0 ≤ p.2)
    {x y : String × Int} (hx : x ∈ l) (hy : y ∈ l) (hxy : x ≠ y) :
    x.2 + y.2 ≤ voteSum l := by
  induction l with
  | nil => cases hx
  | cons a t ih =>
    have ha : 0 ≤ a.2 := hnn a (List.mem_cons_self _ _)
    have ht : ∀ p ∈ t, 0 ≤ p.2 := fun p hp => hnn p (List.mem_cons_of_mem _ hp)
    have hs : voteSum (a :: t) = a.2 + voteSum t := by simp [voteSum]
    rw [hs]
    rcases List.mem_cons.mp hx with hxa | hxt
    · rcases List.mem_cons.mp hy with hya | hyt
      · exact absurd (hxa.trans hya.symm) hxy
      · have := le_voteSum_of_mem ht hyt
        rw [hxa]; omega
    · rcases List.mem_cons.mp hy with hya | hyt
      · have := le_voteSum_of_mem ht hxt
        rw [hya]; omega
      · have := ih ht hxt hyt
        omega

/-- C20. Tie-breaking cannot change the outcome on consistent input. For a conflict map
whose votes are all `>= 0` and sum to at most `total - 1`, any two enumeration orders give
the same candidate and the same verdict: an identity is returned from the map only when
its vote reaches `quorum = total/2 + 1`, and two entries cannot both reach it. -/
theorem tie_break_consistent (self : String) (total inactive active : Int)
    (l₁ l₂ : List (String × Int)) (hT : IsInt total) (hperm : l₁.Perm l₂)
    (hnn : ∀ p ∈ l₁, 0 ≤ p.2) (hsum : voteSum l₁ ≤ total - 1) :
    ZombieDiagnosis self total inactive active l₁
      = ZombieDiagnosis self total inactive active l₂ := by
  have hlen := hperm.length_eq
  by_cases h1 : total = 1
  · subst h1; simp [ZombieDiagnosis]
  by_cases h2 : total = 2
  · subst h2; simp [ZombieDiagnosis, hlen]
  have hh := tally_highestCount_perm hperm
  have hs : voteSum l₁ = voteSum l₂ := by
    unfold voteSum; rw [(hperm.map Prod.snd).sum_eq]
  have hnil : l₁ = [] ↔ l₂ = [] := by
    rw [← List.length_eq_zero, ← List.length_eq_zero, hlen]
  rw [ZombieDiagnosis_unfold self total inactive active l₁ hT h1 h2,
    ZombieDiagnosis_unfold self total inactive active l₂ hT h1 h2, ← hs, ← hh]
  simp only [hnil]
  split_ifs with hg hok hlt hmax hmy
  · rfl
  · rfl
  · rfl
  · rfl
  · rfl
  · have hq : Int.tdiv total 2 + 1 ≤ (tally l₁).highestCount := by
      have := le_max_iff.mp (not_lt.mp hmax)
      omega
    obtain ⟨_, hcase₁⟩ := tally_top l₁
    obtain ⟨_, hcase₂⟩ := tally_top l₂
    rw [← hh] at hcase₂
    rcases hcase₁ with ⟨h0, hc⟩ | ⟨hpos, hfind⟩
    · rcases hcase₂ with ⟨_, hc'⟩ | ⟨hpos', _⟩
      · rw [hc, hc']
      · omega
    · rcases hcase₂ with ⟨h0', _⟩ | ⟨_, hfind'⟩
      · omega
      · have hm₁ := List.mem_of_find?_eq_some hfind
        have hm₂ := hperm.symm.subset (List.mem_of_find?_eq_some hfind')
        by_cases heq : ((tally l₁).topCandidate, (tally l₁).highestCount)
            = ((tally l₂).topCandidate, (tally l₁).highestCount)
        · have hc : (tally l₁).topCandidate = (tally l₂).topCandidate :=
            congrArg Prod.fst heq
          rw [hc]
        · have hadd := add_le_voteSum_of_ne hnn hm₁ hm₂ heq
          have hge : 0 ≤ voteSum l₁ := voteSum_nonneg hnn
          obtain ⟨hdiv, _⟩ := tdiv_two_spec total
          have hd := hdiv (by omega)
          simp only at hadd
          omega

theorem tie_break_consistent_witness :
    ZombieDiagnosis "A" 5 0 4 [("B", 2), ("C", 2)]
      = ZombieDiagnosis "A" 5 0 4 [("C", 2), ("B", 2)] :=
  tie_break_consistent "A" 5 0 4 [("B", 2), ("C", 2)] [("C", 2), ("B", 2)]
    (by decide) (List.Perm.swap _ _ _) (by decide) (by decide)

end Flypg
